import Mathlib

/-! Verification of the go-qbit/rpc request pipeline, method registry and
schema introspection engine against its specification.  The Go source is
shallowly embedded: strings are `String` or `List Char`, machine integers
are `Int`/`Nat` (the repository only compares and never overflows), maps
are association lists, fallible code returns `Option`/`Except`, and the
reflection-driven walks are written over explicit inductive type
descriptions.  Each definition is translated from the corresponding Go
function, keeping its name where Lean allows it. -/

/-! ## Gzip token matching (header.go: CanGzip, CanGzipFast)

Accept-Encoding header values are modelled as `List Char` (Go indexes the
string by byte; the inputs of interest are ASCII, where bytes and
characters coincide). -/

/-- The literal token `gzip` that both matchers look for. -/
def gzipChars : List Char := ['g', 'z', 'i', 'p']

/-- One position `i` of `s` matches the regular expression
`(?:^|,)gzip(?:,|$)` of `CanGzip`: the four characters `gzip` start at
`i`, `i` is the start of the string or is preceded by a comma, and the
match is followed by the end of the string or a comma. -/
def gzipBoundaryAt (s : List Char) (i : Nat) : Bool :=
  gzipChars.isPrefixOf (s.drop i) &&
  (i == 0 || s.get? (i - 1) == some ',') &&
  (i + 4 == s.length || s.get? (i + 4) == some ',')

/-- `CanGzip`: the regular expression `(?:^|,)gzip(?:,|$)` matches somewhere
in `s`. -/
def canGzip (s : List Char) : Bool :=
  (List.range (s.length + 1)).any (gzipBoundaryAt s)

/-- `strings.Index(ce, "gzip")`: the first position where `gzip` occurs, or
`none` (Go returns -1). -/
def stringsIndexGzip (s : List Char) : Option Nat :=
  (List.range (s.length + 1)).find? (fun i => gzipChars.isPrefixOf (s.drop i))

/-- `CanGzipFast`: look up the FIRST occurrence of `gzip` and test the
comma boundaries only there. -/
def canGzipFast (s : List Char) : Bool :=
  match stringsIndexGzip s with
  | none => false
  | some pos =>
    (pos == 0 || s.get? (pos - 1) == some ',') &&
    (pos + 4 == s.length || s.get? (pos + 4) == some ',')

/-- `strings.Split(s, ",")` restricted to a one-character separator: the
comma-separated fields of `s` (splitting the empty string gives one empty
field, as in Go). -/
def splitComma : List Char → List (List Char)
  | [] => [[]]
  | c :: rest =>
    match splitComma rest with
    | [] => [[]]
    | t :: ts => if c = ',' then [] :: t :: ts else (c :: t) :: ts

/-- The specification predicate: `gzip` occurs in `s` as a complete
comma-separated token. -/
def gzipTokenSpec (s : List Char) : Prop := gzipChars ∈ splitComma s

instance (s : List Char) : Decidable (gzipTokenSpec s) := by
  unfold gzipTokenSpec; infer_instance

/-! ## Method path derivation (method.go: getMethodPath, descsFromMethod) -/

/-- `strings.HasPrefix` (written over the character lists so that concrete
instances evaluate inside the kernel). -/
def goHasPrefix (s pre : String) : Bool := pre.data.isPrefixOf s.data

/-- `strings.TrimPrefix`, applied when the prefix is known to match. -/
def goTrimPref (s pre : String) : String := ⟨s.data.drop pre.data.length⟩

/-- `strings.TrimSuffix(s, "/")`: remove one trailing slash if present. -/
def trimOneTrailingSlash (s : String) : String :=
  if s.data.getLast? = some '/' then ⟨s.data.dropLast⟩ else s

/-- `getMethodPath`: trim a trailing `/` from the configured trim prefix,
require it to be a prefix of the service's package path, and strip it.
`none` models the `invalid trim prefix` registration error. -/
def getMethodPath (pkgPath trimPref : String) : Option String :=
  let tp := trimOneTrailingSlash trimPref
  if goHasPrefix pkgPath tp then some (goTrimPref pkgPath tp) else none

/-- `strings.ToLower` on the ASCII range, the range Go method names and the
repository's package paths live in (one character). -/
def goToLowerChar (c : Char) : Char :=
  if 65 ≤ c.toNat && c.toNat ≤ 90 then Char.ofNat (c.toNat + 32) else c

/-- `strings.ToLower` on the ASCII range (whole string). -/
def goToLower (s : String) : String := ⟨s.data.map goToLowerChar⟩

/-- A string with no ASCII uppercase letter: what "entirely lowercase"
means for the paths the registry derives. -/
def noUpper (s : String) : Bool := s.data.all (fun c => !(65 ≤ c.toNat && c.toNat ≤ 90))

/-- `descsFromMethod`: the descriptor path of version method `name` on a
service whose package path is `pkgPath` — the stripped package path, a
slash, and the lowercased method name. -/
def methodDescPath (pkgPath trimPref name : String) : Option String :=
  (getMethodPath pkgPath trimPref).map (fun p => p ++ "/" ++ goToLower name)

/-! ## Constraint rules (validate.go: validator, vMinimumInt, vMaximumInt,
vMinimumUint, vPattern)

A `reflect.StructField`'s tag is modelled already parsed: the numeric tag
values are the integers `strconv.ParseInt`/`ParseUint` would produce (the
claims under proof only involve well-formed numeric tags, so the
parse-failure path of `GetValue` is not exercised), and a `pattern` tag is
the pattern text together with its compiled match predicate. -/

structure FieldTags where
  jsonTag : Option String := none
  descTag : String := ""
  minimumTag : Option Int := none
  maximumTag : Option Int := none
  patternTag : Option (String × (String → Bool)) := none

/-- What one compiled `validateFunc` returns on one value: `nil`, a
non-nil error, or a Go panic (the `default` arms of the type switches). -/
inductive ValRes where
  | ok
  | fail (msg : String)
  | panicked (msg : String)
deriving DecidableEq

/-! Go values as the pipeline sees them, mirrored positionally: a struct
value lists its field values in declaration order (reflection pairs them
with the type's fields by index). -/
mutual
inductive GoVal where
  | vInt (i : Int)
  | vUint (n : Nat)
  | vStr (s : String)
  | vBool (b : Bool)
  | vFileVal
  | vPtrNil
  | vPtrSome (v : GoVal)
  | vStructV (fields : GoVals)
inductive GoVals where
  | vnil
  | vcons (v : GoVal) (rest : GoVals)
end

/-- The subset of `openapi.Schema` the constraint rules write to
(`$ref`, `properties` and `items` of composite schemas are elided: the
claims concern the per-field restriction annotations). -/
structure OApiSchema where
  typ : String := ""
  format : String := ""
  descr : String := ""
  ref : String := ""
  minimumF : Option Int := none
  maximumF : Option Int := none
  patternF : Option String := none
deriving DecidableEq

/-- The error-message field name: the whole `json` tag when one exists,
else the Go field name (as in every compiled validateFunc). -/
def msgFieldName (fname : String) (tags : FieldTags) : String :=
  match tags.jsonTag with
  | some t => t
  | none => fname

/-- The closure `vMinimumInt.GetValidateFunc` compiles (the `int` kinds all
convert to `int64`, so one `Int` case stands for the five). -/
def minIntCheck (fname : String) (tags : FieldTags) (target : Int) : GoVal → ValRes :=
  fun v =>
    match v with
    | .vInt i =>
      if i < target then
        .fail (msgFieldName fname tags ++ "=" ++ toString i ++
          " is less than requred minimum " ++ toString target)
      else .ok
    | _ => .panicked "Unknown int type"

/-- The closure `vMaximumInt.GetValidateFunc` compiles. -/
def maxIntCheck (fname : String) (tags : FieldTags) (target : Int) : GoVal → ValRes :=
  fun v =>
    match v with
    | .vInt i =>
      if target < i then
        .fail (msgFieldName fname tags ++ "=" ++ toString i ++
          " is greater than requred maximum " ++ toString target)
      else .ok
    | _ => .panicked "Unknown int type"

/-- The closure `vMinimumUint.GetValidateFunc` compiles; the `uint64`
comparison is carried out in `Int` (its tag value is non-negative whenever
`strconv.ParseUint` accepted it). -/
def minUintCheck (fname : String) (tags : FieldTags) (target : Int) : GoVal → ValRes :=
  fun v =>
    match v with
    | .vUint n =>
      if (n : Int) < target then
        .fail (msgFieldName fname tags ++ "=" ++ toString n ++
          " is less than requred minimum " ++ toString target)
      else .ok
    | _ => .panicked "Unknown int type"

/-- The closure `vPattern.GetValidateFunc` compiles. -/
def patternCheck (fname : String) (tags : FieldTags) (p : String)
    (re : String → Bool) : GoVal → ValRes :=
  fun v =>
    match v with
    | .vStr s =>
      if re s then .ok
      else
        let shown := if s.length > 25 then s.take 22 ++ "..." else s
        .fail (msgFieldName fname tags ++ "=" ++ shown ++
          " does not match the pattern " ++ p)
    | _ => .panicked "interface conversion to string"

/-- The `validator` interface: render the constraint into a schema, and
compile the constraint into a predicate (absent tag: no predicate). -/
structure ValidatorRule where
  toSwaggerSchema : String → FieldTags → OApiSchema → OApiSchema
  getValidateFunc : String → FieldTags → Option (GoVal → ValRes)

/-- `vMinimumInt`: reads the `minimum` tag, documents `schema.Minimum`. -/
def vMinimumInt : ValidatorRule where
  toSwaggerSchema := fun _ tags schema =>
    match tags.minimumTag with
    | some v => { schema with minimumF := some v }
    | none => schema
  getValidateFunc := fun fname tags => (tags.minimumTag).map (minIntCheck fname tags)

/-- `vMaximumInt`: reads the `maximum` tag; NOTE its `ToSwaggerSchema`
assigns `schema.Minimum = val`, exactly as the source does (file.go line
`schema.Minimum = val` inside `vMaximumInt.ToSwaggerSchema`) — the
`Maximum` field is never written. -/
def vMaximumInt : ValidatorRule where
  toSwaggerSchema := fun _ tags schema =>
    match tags.maximumTag with
    | some v => { schema with minimumF := some v }
    | none => schema
  getValidateFunc := fun fname tags => (tags.maximumTag).map (maxIntCheck fname tags)

/-- `vMinimumUint`: reads the `minimum` tag, documents `schema.Minimum`. -/
def vMinimumUint : ValidatorRule where
  toSwaggerSchema := fun _ tags schema =>
    match tags.minimumTag with
    | some v => { schema with minimumF := some v }
    | none => schema
  getValidateFunc := fun fname tags => (tags.minimumTag).map (minUintCheck fname tags)

/-- `vPattern`: reads the `pattern` tag, documents `schema.Pattern`. -/
def vPattern : ValidatorRule where
  toSwaggerSchema := fun _ tags schema =>
    match tags.patternTag with
    | some (p, _) => { schema with patternF := some p }
    | none => schema
  getValidateFunc := fun fname tags =>
    match tags.patternTag with
    | some (p, re) => some (patternCheck fname tags p re)
    | none => none

/-- `reflect.Kind`, restricted to the kinds the repository distinguishes
(the five signed widths collapse to `kInt`, the five unsigned ones to
`kUint`; `interface` kinds other than `File` do not occur in a request). -/
inductive GoKind where
  | kInt | kUint | kStr | kBool | kFloat | kPtr | kStruct | kFile
deriving DecidableEq

/-- `intValidators = []validator{vMinimumInt{}, vMaximumInt{}}`. -/
def intValidators : List ValidatorRule := [vMinimumInt, vMaximumInt]

/-- `uintValidators = []validator{vMinimumUint{}, vMinimumUint{}}` — the
source lists the unsigned MINIMUM rule twice and no maximum rule. -/
def uintValidators : List ValidatorRule := [vMinimumUint, vMinimumUint]

/-- The `validators` kind table: every signed kind maps to
`intValidators`, every unsigned kind to `uintValidators`, `String` to the
pattern rule; kinds absent from the Go map give the empty list. -/
def validatorsForKind : GoKind → List ValidatorRule
  | .kInt => intValidators
  | .kUint => uintValidators
  | .kStr => [vPattern]
  | _ => []

/-- `addFieldRestrictions` (swagger.go): fold every rule registered for the
field's kind over the field's schema. -/
def addFieldRestrictions (kind : GoKind) (fname : String) (tags : FieldTags)
    (schema : OApiSchema) : OApiSchema :=
  (validatorsForKind kind).foldl (fun s rule => rule.toSwaggerSchema fname tags s) schema

/-! ## Request types and validator compilation (method.go: getValidators) -/

/-! Request/response types as `reflect.Type` presents them to the walks. -/
mutual
inductive GoTy where
  | intT | uintT | strT | boolT | fileT
  | ptrT (t : GoTy)
  | structT (fs : GoFields)
inductive GoFields where
  | fnil
  | fcons (name : String) (tags : FieldTags) (ty : GoTy) (rest : GoFields)
end

/-- `reflect.Type.Kind()`. -/
def GoTy.kind : GoTy → GoKind
  | .intT => .kInt
  | .uintT => .kUint
  | .strT => .kStr
  | .boolT => .kBool
  | .fileT => .kFile
  | .ptrT _ => .kPtr
  | .structT _ => .kStruct

/-- The `if fieldType.Kind() == reflect.Ptr { fieldType = fieldType.Elem() }`
step both walks perform before deciding whether a field is a struct. -/
def GoTy.derefElem : GoTy → GoTy
  | .ptrT e => e
  | t => t

/-- `MethodDesc.Validators`: field path to the ordered compiled predicates
(`map[string][]validateFunc`, as an association list). -/
abbrev VMap := List (String × List (GoVal → ValRes))

/-- `validatorsMap[path] = append(validatorsMap[path], vFunc)`. -/
def vmapAppend (m : VMap) (path : String) (f : GoVal → ValRes) : VMap :=
  match m with
  | [] => [(path, [f])]
  | (p, fs) :: rest =>
    if p = path then (p, fs ++ [f]) :: rest else (p, fs) :: vmapAppend rest path f

/-- `m.Validators[path]` (a missing key reads as the empty slice). -/
def vmapGet (m : VMap) (path : String) : List (GoVal → ValRes) :=
  match m.find? (fun e => e.1 = path) with
  | some e => e.2
  | none => []

/-! `getValidators` (method.go): descend through pointers, walk struct
fields with an accumulating `/`-separated field path; a (pointer-to-)struct
field recurses with its original type, any other field compiles the rules
registered for its ORIGINAL kind (so a pointer-to-scalar field, kind
`Ptr`, compiles nothing, as in the Go kind map). The numeric-tag parse
error path of `GetValidateFunc` is not modelled (tags arrive parsed). -/
mutual
def getValidators : GoTy → VMap → String → VMap
  | .ptrT t, m, curPath => getValidators t m curPath
  | .structT fs, m, curPath => getValidatorsFields fs m curPath
  | _, m, _ => m
def getValidatorsFields : GoFields → VMap → String → VMap
  | .fnil, m, _ => m
  | .fcons name tags ty rest, m, curPath =>
    let m2 :=
      match ty.derefElem with
      | .structT _ => getValidators ty m (curPath ++ "/" ++ name)
      | _ =>
        (validatorsForKind ty.kind).foldl
          (fun acc rule =>
            match rule.getValidateFunc name tags with
            | some f => vmapAppend acc (curPath ++ "/" ++ name) f
            | none => acc) m
    getValidatorsFields rest m2 curPath
end

/-! ## Request validation and dispatch (method.go: validateData,
MethodDesc.Call) -/

/-- What one `validateData` walk returns: `nil`, the first failing
predicate's error, or a propagating panic. -/
inductive VOut where
  | pass
  | failV (msg : String)
  | panicV (msg : String)
deriving DecidableEq

/-- Run the compiled predicates of one field path in order; the first
non-nil error aborts. -/
def runValidateList : List (GoVal → ValRes) → GoVal → VOut
  | [], _ => .pass
  | f :: fs, v =>
    match f v with
    | .ok => runValidateList fs v
    | .fail msg => .failV msg
    | .panicked msg => .panicV msg

/-! `MethodDesc.validateData`: pointers descend when non-nil (a nil pointer
short-circuits without error), structs walk their fields with the same
path scheme as `getValidators`, every other kind returns nil; a
(pointer-to-)struct field recurses, any other field runs the validators
stored under its path, and the first failure aborts the whole walk. -/
mutual
def validateData (m : VMap) : GoTy → GoVal → String → VOut
  | .ptrT t, v, curPath =>
    match v with
    | .vPtrSome inner => validateData m t inner curPath
    | _ => .pass
  | .structT fs, v, curPath =>
    match v with
    | .vStructV vs => validateFields m fs vs curPath
    | _ => .pass
  | _, _, _ => .pass
def validateFields (m : VMap) : GoFields → GoVals → String → VOut
  | .fnil, _, _ => .pass
  | .fcons name _tags ty rest, vs, curPath =>
    match vs with
    | .vnil => .pass
    | .vcons v vrest =>
      let res :=
        match ty.derefElem with
        | .structT _ => validateData m ty v (curPath ++ "/" ++ name)
        | _ => runValidateList (vmapGet m (curPath ++ "/" ++ name)) v
      match res with
      | .pass => validateFields m rest vrest curPath
      | other => other
end

/-- The error value `MethodDesc.Call` or a handler returns: a structured
`*rpc.Error` (code and message; the optional `Data` payload is elided) or
any other Go error value. -/
inductive CallErrE where
  | rpcE (code : String) (msg : String)
  | goE (msg : String)
deriving DecidableEq

/-- The observable outcome of `MethodDesc.Call`. -/
inductive CallOut where
  | success (resp : GoVal)
  | callErr (e : CallErrE)
  | panicOut (msg : String)

/-- The outcome together with whether the handler was invoked. -/
structure CallRes where
  out : CallOut
  handlerInvoked : Bool

/-- `m.Func.Call(...)`: a non-nil handler error is returned verbatim, a
nil one returns the response value. -/
def runHandler (h : GoVal → GoVal × Option CallErrE) (req : GoVal) : CallRes :=
  match h req with
  | (_, some e) => ⟨.callErr e, true⟩
  | (resp, none) => ⟨.success resp, true⟩

/-- `MethodDesc.Call`, non-multipart branch: the JSON decoder is an
external collaborator, so its outcome — the decoder's error text, or the
decoded request value — is a parameter. A decode failure yields the
structured `INVALID_JSON` error; with a non-empty validator map the
request is validated and the first failure yields `INVALID_JSON` with the
predicate's message; otherwise the handler runs. -/
def mdCall (validators : VMap) (reqTy : GoTy) (decodeRes : Except String GoVal)
    (h : GoVal → GoVal × Option CallErrE) : CallRes :=
  match decodeRes with
  | .error msg => ⟨.callErr (.rpcE "INVALID_JSON" msg), false⟩
  | .ok req =>
    if validators.isEmpty then runHandler h req
    else
      match validateData validators reqTy req "" with
      | .pass => runHandler h req
      | .failV msg => ⟨.callErr (.rpcE "INVALID_JSON" msg), false⟩
      | .panicV msg => ⟨.panicOut msg, false⟩

/-! ## Multipart file capture (method.go: the file-part branch of
MethodDesc.Call)

A part's payload is a byte list (`List Nat`); `maxMemory` is the
threshold. `io.CopyN(buf, p, maxMemory+1)` buffers at most `maxMemory+1`
bytes; if it read more than `maxMemory` the part is spooled: a temp file
receives `io.Copy(tmp, io.MultiReader(buf, p))` — the buffered bytes then
the rest of the part — and is rewound with `tmp.Seek(0, 0)`. -/

/-- The backing of one captured `File` value: the in-memory buffer, or the
spooled temp file's contents with its read offset. -/
inductive FileBacking where
  | memBuf (contents : List Nat)
  | tmpSpool (contents : List Nat) (offset : Nat)
deriving DecidableEq

/-- The file-part capture of `MethodDesc.Call` on one part. -/
def captureFilePart (data : List Nat) (maxMemory : Nat) : FileBacking :=
  let buffered := data.take (maxMemory + 1)
  if maxMemory < buffered.length then
    .tmpSpool (buffered ++ data.drop (maxMemory + 1)) 0
  else
    .memBuf buffered

/-- `File.Size()`: `buffer.Size` is `Buffer.Len()`, `tmpFile.Size` is the
stat size of what was written. -/
def FileBacking.size : FileBacking → Nat
  | .memBuf c => c.length
  | .tmpSpool c _ => c.length

/-- Whether the captured value is backed by spooled external storage. -/
def FileBacking.isSpooled : FileBacking → Bool
  | .memBuf _ => false
  | .tmpSpool _ _ => true

/-! ## Temp-file accounting of the multipart branch (method.go:
MethodDesc.Call; file.go: tmpFile.Close)

The multipart loop is modelled with its external effects made explicit:
each part is either a file part (its bytes, plus whether `os.CreateTemp`,
the `io.Copy` and the `Seek` succeed) or a JSON part (its decode
outcome). The trace counts temp files created and temp files removed
(`os.Remove`); the source removes a temp file only on the copy/seek error
paths inside the loop — `Call` contains no `Close` and no `Remove` after
the handler returns. -/

inductive MPart where
  | filePart (data : List Nat) (createOk : Bool) (copyOk : Bool) (seekOk : Bool)
  | jsonPart (decodeRes : Except String Unit)

/-- How many temp files the call created and how many it removed. -/
structure ResTrace where
  tmpCreated : Nat := 0
  tmpRemoved : Nat := 0
deriving DecidableEq

/-- The `reader.NextPart()` loop of the multipart branch. -/
def multipartLoop : List MPart → Nat → ResTrace → Except (CallErrE × ResTrace) ResTrace
  | [], _, tr => .ok tr
  | .filePart data createOk copyOk seekOk :: rest, maxMemory, tr =>
    let buffered := data.take (maxMemory + 1)
    if maxMemory < buffered.length then
      if !createOk then .error (.goE "CreateTemp failed", tr)
      else
        let tr1 : ResTrace := { tr with tmpCreated := tr.tmpCreated + 1 }
        if !copyOk then
          .error (.goE "copy failed", { tr1 with tmpRemoved := tr1.tmpRemoved + 1 })
        else if !seekOk then
          .error (.goE "seek failed", { tr1 with tmpRemoved := tr1.tmpRemoved + 1 })
        else multipartLoop rest maxMemory tr1
    else multipartLoop rest maxMemory tr
  | .jsonPart decodeRes :: rest, maxMemory, tr =>
    match decodeRes with
    | .error msg => .error (.rpcE "INVALID_JSON" msg, tr)
    | .ok _ => multipartLoop rest maxMemory tr

/-- The handler outcome of a dispatched call (response value elided to the
returned error, as `Call` forwards both unchanged). -/
def dispatchOutcome (resp : GoVal) (handlerErr : Option CallErrE) : CallRes :=
  match handlerErr with
  | some e => ⟨.callErr e, true⟩
  | none => ⟨.success resp, true⟩

/-- `MethodDesc.Call`, multipart branch, with its temp-file trace: run the
part loop, then validation (its outcome `validRes` guarded by whether any
validators were compiled), then the handler. After the handler returns,
no temp file is removed — the trace of the loop is the trace of the whole
call. -/
def mdCallMultipart (parts : List MPart) (maxMemory : Nat) (hasValidators : Bool)
    (validRes : VOut) (resp : GoVal) (handlerErr : Option CallErrE) :
    CallRes × ResTrace :=
  match multipartLoop parts maxMemory {} with
  | .error (e, tr) => (⟨.callErr e, false⟩, tr)
  | .ok tr =>
    if hasValidators then
      match validRes with
      | .pass => (dispatchOutcome resp handlerErr, tr)
      | .failV msg => (⟨.callErr (.rpcE "INVALID_JSON" msg), false⟩, tr)
      | .panicV msg => (⟨.panicOut msg, false⟩, tr)
    else (dispatchOutcome resp handlerErr, tr)

/-! ## The documentation projection (swagger.go: Rpc.getSchema) and the
client-binding projection (client/typescript/typescript.go:
addTsStructTypes)

Go's `reflect.Type` graphs may be cyclic, so named struct types are
resolved through an environment `SEnv` (name to field list); `sNamed`
carries the name already in the mangled lowercase form `Rpc.typeName`
produces. Both walks are written with explicit fuel, spent on every
recursive call: `none` means the fuel ran out, and a walk that returns
`none` for EVERY fuel is one whose Go original never terminates. -/

inductive STy where
  | sInt32 | sInt64 | sString | sBool | sFloat | sDouble | sFile
  | sPtr (t : STy)
  | sSlice (t : STy)
  | sNamed (name : String)

/-- The named-struct environment: `reflect` field lists by type name. -/
abbrev SEnv := List (String × List (String × FieldTags × STy))

/-- `res.Components.Schemas`, the named-schema table being filled. -/
abbrev SMap := List (String × OApiSchema)

/-- `storage[name]` lookup. -/
def lookupSMap (st : SMap) (n : String) : Option OApiSchema :=
  (st.find? (fun e => e.1 = n)).map (fun e => e.2)

/-- The kind `addFieldRestrictions` dispatches on for a schema-walk type. -/
def STy.kind : STy → GoKind
  | .sInt32 | .sInt64 => .kInt
  | .sString => .kStr
  | .sBool => .kBool
  | .sFloat | .sDouble => .kFloat
  | .sFile => .kFile
  | .sPtr _ => .kPtr
  | .sSlice _ => .kPtr
  | .sNamed _ => .kStruct

/-! `Rpc.getSchema` with fuel. The struct case follows the source line for
line: if the name is already in storage, return the `$ref` at once;
otherwise walk all the fields FIRST (each field's schema gets its `desc`
and `addFieldRestrictions`), and only then insert the object schema under
the name. The `json_data` file-field split only regroups the computed
field schemas, so it is folded into the object schema construction. -/
mutual
def getSchemaFuel (env : SEnv) : Nat → STy → SMap → Option (OApiSchema × SMap)
  | 0, _, _ => none
  | fuel + 1, t, storage =>
    match t with
    | .sPtr e => getSchemaFuel env fuel e storage
    | .sInt32 => some ({ typ := "integer", format := "int32" }, storage)
    | .sInt64 => some ({ typ := "integer", format := "int64" }, storage)
    | .sString => some ({ typ := "string" }, storage)
    | .sBool => some ({ typ := "boolean" }, storage)
    | .sFloat => some ({ typ := "number", format := "float" }, storage)
    | .sDouble => some ({ typ := "number", format := "double" }, storage)
    | .sFile => some ({ typ := "string", format := "binary" }, storage)
    | .sSlice e =>
      match getSchemaFuel env fuel e storage with
      | none => none
      | some (_, st2) => some ({ typ := "array" }, st2)
    | .sNamed n =>
      if (lookupSMap storage n).isSome then some ({ ref := n }, storage)
      else
        match env.find? (fun e => e.1 = n) with
        | none => none
        | some (_, fields) =>
          match getSchemaFieldsFuel env fuel fields storage with
          | none => none
          | some st2 => some ({ ref := n }, (n, { typ := "object" }) :: st2)
def getSchemaFieldsFuel (env : SEnv) :
    Nat → List (String × FieldTags × STy) → SMap → Option SMap
  | 0, _, _ => none
  | _ + 1, [], st => some st
  | fuel + 1, (fname, tags, fty) :: rest, st =>
    match getSchemaFuel env fuel fty st with
    | none => none
    | some (fieldSchema, st2) =>
      let _ := addFieldRestrictions fty.kind fname tags
        { fieldSchema with descr := tags.descTag }
      getSchemaFieldsFuel env fuel rest st2
end

/-- The names registered in the TypeScript generator's `types` map (the
`reflect.Type` payload is elided: only the keys steer the walk, which
never consults them). -/
abbrev TsTable := List String

/-! `addTsStructTypes` with fuel. The struct case registers
`m[toTsTypeName(st)] = st` BEFORE walking the fields, but performs no
membership check at all, so a revisit of the same struct walks its fields
again. -/
mutual
def addTsStructTypesFuel (env : SEnv) : Nat → STy → TsTable → Option TsTable
  | 0, _, _ => none
  | fuel + 1, t, m =>
    match t with
    | .sPtr e => addTsStructTypesFuel env fuel e m
    | .sSlice e => addTsStructTypesFuel env fuel e m
    | .sNamed n =>
      match env.find? (fun e => e.1 = n) with
      | none => none
      | some (_, fields) => addTsFieldsFuel env fuel fields (n :: m)
    | _ => some m
def addTsFieldsFuel (env : SEnv) :
    Nat → List (String × FieldTags × STy) → TsTable → Option TsTable
  | 0, _, _ => none
  | _ + 1, [], m => some m
  | fuel + 1, (_, tags, fty) :: rest, m =>
    if tags.jsonTag = some "-" then addTsFieldsFuel env fuel rest m
    else
      match addTsStructTypesFuel env fuel fty m with
      | none => none
      | some m2 => addTsFieldsFuel env fuel rest m2
end

/-- The one-type environment of a self-referential struct:
`type T struct { Next *T }` (schema name `t` after `typeName` mangling). -/
def selfRefEnv : SEnv := [("t", [("Next", {}, .sPtr (.sNamed "t"))])]

/-! ## Error-catalog binding (method.go: bindErrors; rpc.go:
Rpc.RegisterMethod)

A service object's callable surface is the list of its method shapes: a
version method `V<n>`, an `ErrorsV<n>` accessor (returning either a
pointer to a struct of error fields, or something else), or any other
method. `bindErrors` writes each error code into
`methods[methodPath].Errors`; when no descriptor was registered under
`methodPath`, that map indexing dereferences a nil `*MethodDesc`, a Go
runtime panic. -/

structure ErrField where
  fname : String
  isErrorFunc : Bool
  fdesc : String

inductive ErrVarShape where
  | ptrStruct (fields : List ErrField)
  | malformed

inductive SvcEntry where
  | versionM (n : Nat)
  | errorsM (n : Nat) (shape : ErrVarShape)
  | otherM

/-- `r.methods`: descriptor paths with their error catalogs (the rest of
`MethodDesc` is elided: `bindErrors` touches only `Errors`). -/
abbrev MethodsMap := List (String × List (String × String))

/-- Whether a descriptor exists at `path`. -/
def mmapHas (m : MethodsMap) (path : String) : Bool :=
  (m.find? (fun e => e.1 = path)).isSome

/-- `methods[methodPath].Errors[ft.Name] = ft.Tag.Get("desc")`. -/
def mmapAddError (m : MethodsMap) (path : String) (code desc : String) : MethodsMap :=
  match m with
  | [] => []
  | (p, errs) :: rest =>
    if p = path then (p, errs ++ [(code, desc)]) :: rest
    else (p, errs) :: mmapAddError rest path code desc

/-- How one `bindErrors` run ends: normally, with the signature error it
returns, or in the nil-descriptor panic. -/
inductive BindOutcome where
  | okB (methods : MethodsMap)
  | errB (msg : String)
  | nilPanic (path : String)

/-- The field loop of `bindErrors`: each field must be an
`rpc.ErrorFunc`; writing its code into the catalog dereferences the
descriptor at `methodPath`, which panics when none was registered. -/
def bindFields : MethodsMap → String → List ErrField → BindOutcome
  | methods, _, [] => .okB methods
  | methods, mpath, f :: rest =>
    if !f.isErrorFunc then
      .errB ("error type for " ++ f.fname ++ " must be github.com/go-qbit/rpc.ErrorFunc")
    else if mmapHas methods mpath then
      bindFields (mmapAddError methods mpath f.fname f.fdesc) mpath rest
    else .nilPanic mpath

/-- `bindErrors`: scan the service's methods for `ErrorsV<n>` accessors;
each must return a pointer to a struct, whose fields are then bound under
the derived path `path + "/v" + n`. -/
def bindErrorsModel (path : String) : List SvcEntry → MethodsMap → BindOutcome
  | [], methods => .okB methods
  | .versionM _ :: rest, methods => bindErrorsModel path rest methods
  | .otherM :: rest, methods => bindErrorsModel path rest methods
  | .errorsM n shape :: rest, methods =>
    match shape with
    | .malformed => .errB "errors variable must be a pointer to a structure"
    | .ptrStruct fields =>
      match bindFields methods (path ++ "/v" ++ toString n) fields with
      | .okB m2 => bindErrorsModel path rest m2
      | other => other

/-- The descriptor paths `descsFromMethod` derives: one per `V<n>` method,
`path + "/" + strings.ToLower("V<n>")` = `path + "/v" + n`. -/
def descPaths (path : String) : List SvcEntry → List String
  | [] => []
  | .versionM n :: rest => (path ++ "/v" ++ toString n) :: descPaths path rest
  | _ :: rest => descPaths path rest

/-- `Rpc.RegisterMethod`: register one descriptor per version method
(fresh empty error catalog each), then bind the error catalogs. -/
def registerMethodModel (path : String) (entries : List SvcEntry) : BindOutcome :=
  bindErrorsModel path entries ((descPaths path entries).map (fun p => (p, [])))

/-! ## Concrete fixtures for the claims (mirroring
internal/test/method/hello: ReqV1.IntParam and StructV1.F1) -/

/-- The header string whose trailing token the fast matcher misses. -/
def gzMissedInput : List Char := "gziptest,gzip".toList

/-- An `int` request field declaring `maximum:"200"` and no `minimum`. -/
def fieldC2Tags : FieldTags := { jsonTag := some "max_param", maximumTag := some 200 }

/-- `ReqV1.IntParam`: `json:"int_param" minimum:"100" maximum:"200"`. -/
def tagsC6 : FieldTags :=
  { jsonTag := some "int_param", descTag := "An integer parameter",
    minimumTag := some 100, maximumTag := some 200 }

/-- A request type with that one signed-integer field (`Call` receives the
pointer type `*Req`). -/
def tyC6 : GoTy := .ptrT (.structT (.fcons "IntParam" tagsC6 .intT .fnil))

/-- The validator map registration compiles for `tyC6`. -/
def vmapC6 : VMap := getValidators tyC6 [] ""

/-- The decoded request with the field set to `i`. -/
def reqC6 (i : Int) : GoVal := .vPtrSome (.vStructV (.vcons (.vInt i) .vnil))

/-- `StructV1.F1`: `json:"f1" minimum:"1" maximum:"200"` on a `uint`. -/
def tagsC9 : FieldTags := { jsonTag := some "f1", minimumTag := some 1, maximumTag := some 200 }

/-- A request type with that one unsigned field. -/
def tyC9 : GoTy := .ptrT (.structT (.fcons "F1" tagsC9 .uintT .fnil))

/-- The validator map registration compiles for `tyC9`. -/
def vmapC9 : VMap := getValidators tyC9 [] ""

/-- The decoded request with the unsigned field set to `n`. -/
def reqC9 (n : Nat) : GoVal := .vPtrSome (.vStructV (.vcons (.vUint n) .vnil))

/-- A `uint` field declaring ONLY `maximum:"200"`. -/
def tagsC9max : FieldTags := { jsonTag := some "f1", maximumTag := some 200 }

/-- A request type with that maximum-only unsigned field. -/
def tyC9max : GoTy := .ptrT (.structT (.fcons "F1" tagsC9max .uintT .fnil))

/-- A handler that echoes its request and returns a nil error. -/
def echoHandler : GoVal → GoVal × Option CallErrE := fun r => (r, none)

/-! ## Theorems -/

/-! ### C1: gzip token matching -/

/-- The embedded `CanGzip` agrees with the repository's own test table
(header_test.go), case by case. -/
theorem canGzip_matches_test_table :
    canGzip "".toList = false ∧ canGzip "gzip".toList = true ∧
    canGzip "test,gzip".toList = true ∧ canGzip "gzip,test".toList = true ∧
    canGzip "test,gzip,test".toList = true ∧ canGzip "testgzip".toList = false ∧
    canGzip "gziptest".toList = false ∧ canGzip "testgziptest".toList = false ∧
    canGzip "test,gziptest".toList = false ∧ canGzip "testgzip,test".toList = false ∧
    canGzip "test,testgzip,test".toList = false := by
  decide

/-- The embedded `CanGzipFast` also passes every case of that table — the
table simply lacks an input where a non-token `gzip` precedes a token one. -/
theorem canGzipFast_matches_test_table :
    canGzipFast "".toList = false ∧ canGzipFast "gzip".toList = true ∧
    canGzipFast "test,gzip".toList = true ∧ canGzipFast "gzip,test".toList = true ∧
    canGzipFast "test,gzip,test".toList = true ∧ canGzipFast "testgzip".toList = false ∧
    canGzipFast "gziptest".toList = false ∧ canGzipFast "testgziptest".toList = false ∧
    canGzipFast "test,gziptest".toList = false ∧ canGzipFast "testgzip,test".toList = false ∧
    canGzipFast "test,testgzip,test".toList = false := by
  decide


/-! The regular-expression matcher `CanGzip` is exactly the
comma-separated-token predicate: the lemmas below relate a boundary match
position to the token decomposition of the header and culminate in
`canGzip_iff_token`. -/

/-- `splitComma` always yields at least one (possibly empty) field. -/
theorem splitComma_ne_nil (s : List Char) : splitComma s ≠ [] := by
  cases s with
  | nil => simp [splitComma]
  | cons c rest =>
    cases h : splitComma rest with
    | nil => simp [splitComma, h]
    | cons t ts =>
      simp only [splitComma, h]
      split <;> simp

/-- Splitting around a comma splits each side separately. -/
theorem splitComma_append_comma (x y : List Char) :
    splitComma (x ++ ',' :: y) = splitComma x ++ splitComma y := by
  induction x with
  | nil =>
    cases hy : splitComma y with
    | nil => exact absurd hy (splitComma_ne_nil y)
    | cons t ts => simp [splitComma, hy]
  | cons c x' ih =>
    cases hx : splitComma x' with
    | nil => exact absurd hx (splitComma_ne_nil x')
    | cons t ts =>
      simp only [List.cons_append, splitComma, List.append_eq]
      rw [ih, hx]
      rw [List.cons_append]
      by_cases hc : c = ','
      · simp [hc]
      · simp [hc]

/-- A comma-free string is one whole field. -/
theorem splitComma_no_comma (x : List Char) (h : ',' ∉ x) : splitComma x = [x] := by
  induction x with
  | nil => rfl
  | cons c x' ih =>
    simp only [List.mem_cons, not_or] at h
    have h1 : ¬ (c = ',') := fun hh => h.1 hh.symm
    rw [splitComma, ih h.2]
    simp [h1]

/-- The first field of the split, peeled off the string: either the
whole string is one field, or the field is followed by a comma and the
rest splits to the remaining fields. -/
theorem splitComma_head_decomp :
    ∀ (s t : List Char) (ts : List (List Char)), splitComma s = t :: ts →
      (ts = [] ∧ s = t) ∨ (∃ q, s = t ++ ',' :: q ∧ splitComma q = ts) := by
  intro s
  induction s with
  | nil =>
    intro t ts h
    simp only [splitComma] at h
    injection h with h1 h2
    exact Or.inl ⟨h2.symm, h1⟩
  | cons c rest ih =>
    intro t ts h
    cases hr : splitComma rest with
    | nil => exact absurd hr (splitComma_ne_nil rest)
    | cons t2 ts2 =>
      simp only [splitComma, hr] at h
      by_cases hc : c = ','
      · rw [if_pos hc] at h
        injection h with h1 h2
        subst hc
        refine Or.inr ⟨rest, ?_, ?_⟩
        · rw [← h1]
          rfl
        · rw [hr, h2]
      · rw [if_neg hc] at h
        injection h with h1 h2
        rcases ih t2 ts2 hr with ⟨hts, hrst⟩ | ⟨q, hq1, hq2⟩
        · refine Or.inl ⟨h2 ▸ hts, ?_⟩
          rw [← h1, hrst]
        · refine Or.inr ⟨q, ?_, h2 ▸ hq2⟩
          rw [← h1, hq1]
          rfl

/-- A boundary match at position 0: `gzip` followed by nothing or by a
comma. -/
theorem gzipBoundaryAt_start (post : List Char)
    (hpost : post = [] ∨ ∃ q, post = ',' :: q) :
    gzipBoundaryAt (gzipChars ++ post) 0 = true := by
  unfold gzipBoundaryAt
  rcases hpost with hp | ⟨q, hp⟩ <;> subst hp <;> simp [gzipChars]

/-- A boundary match survives prepending a field and its comma. -/
theorem gzipBoundaryAt_shift (p q : List Char) (j : Nat)
    (hB : gzipBoundaryAt q j = true) :
    gzipBoundaryAt (p ++ ',' :: q) (p.length + 1 + j) = true := by
  have hsplit : ∀ k, (p ++ ',' :: q).get? (p.length + k) = (',' :: q).get? k := by
    intro k
    rw [List.get?_append_right (Nat.le_add_right _ _)]
    rw [Nat.add_sub_cancel_left]
  unfold gzipBoundaryAt at hB ⊢
  simp only [Bool.and_eq_true, Bool.or_eq_true, beq_iff_eq] at hB ⊢
  obtain ⟨⟨hpre, hbefore⟩, hafter⟩ := hB
  refine ⟨⟨?_, ?_⟩, ?_⟩
  · have hdrop : (p ++ ',' :: q).drop (p.length + 1 + j) = q.drop j := by
      rw [show p.length + 1 + j = p.length + (1 + j) by omega]
      rw [List.drop_append]
      rw [show (1 + j) = j + 1 by omega]
      rw [List.drop_succ_cons]
    rw [hdrop]
    exact hpre
  · right
    rw [show p.length + 1 + j - 1 = p.length + j by omega]
    rw [hsplit j]
    rcases Nat.eq_zero_or_pos j with hj0 | hjpos
    · subst hj0
      rfl
    · rw [show j = (j - 1) + 1 by omega]
      rw [List.get?_cons_succ]
      rcases hbefore with hj | hcomma
      · omega
      · exact hcomma
  · rcases hafter with hend | hcomma
    · left
      simp only [List.length_append, List.length_cons]
      omega
    · right
      rw [show p.length + 1 + j + 4 = p.length + (j + 4 + 1) by omega]
      rw [hsplit (j + 4 + 1)]
      rw [List.get?_cons_succ]
      exact hcomma

/-- Reading one character splits the drop at that position. -/
theorem drop_of_get? (l : List Char) (n : Nat) (c : Char) (h : l.get? n = some c) :
    l.drop n = c :: l.drop (n + 1) := by
  induction l generalizing n with
  | nil => simp at h
  | cons x xs ih =>
    cases n with
    | zero =>
      simp only [List.get?_cons_zero, Option.some.injEq] at h
      subst h
      rfl
    | succ m =>
      simp only [List.get?_cons_succ] at h
      simp only [List.drop_succ_cons]
      exact ih m h

/-- A boundary match anywhere puts `gzip` among the comma-separated
fields. -/
theorem boundary_to_tokenSpec (s : List Char) (i : Nat)
    (hB : gzipBoundaryAt s i = true) : gzipChars ∈ splitComma s := by
  have hnc : (',' : Char) ∉ gzipChars := by decide
  unfold gzipBoundaryAt at hB
  simp only [Bool.and_eq_true, Bool.or_eq_true, beq_iff_eq] at hB
  obtain ⟨⟨hpre, hbefore⟩, hafter⟩ := hB
  obtain ⟨r, hr⟩ := List.isPrefixOf_iff_prefix.1 hpre
  have hrr : r = s.drop (i + 4) := by
    have h4 : (gzipChars ++ r).drop 4 = r := by
      rw [show (4 : Nat) = gzipChars.length from rfl, List.drop_left]
    have hdd : (s.drop i).drop 4 = s.drop (i + 4) := by
      rw [List.drop_drop]
    rw [← h4, hr, hdd]
  have hs : s = s.take i ++ (gzipChars ++ s.drop (i + 4)) := by
    conv_lhs => rw [← List.take_append_drop i s]
    rw [← hr, hrr]
  have hpost : gzipChars ++ s.drop (i + 4) = gzipChars
      ∨ ∃ q, gzipChars ++ s.drop (i + 4) = gzipChars ++ ',' :: q := by
    rcases hafter with hend | hcomma
    · left
      rw [List.drop_eq_nil_of_le (by omega), List.append_nil]
    · right
      exact ⟨s.drop (i + 4 + 1), by rw [drop_of_get? s (i + 4) ',' hcomma]⟩
  have hmidmem : ∀ (x : List Char), (x = gzipChars ∨ ∃ q, x = gzipChars ++ ',' :: q) →
      gzipChars ∈ splitComma x := by
    intro x hx
    rcases hx with hx | ⟨q, hx⟩
    · rw [hx, splitComma_no_comma gzipChars hnc]
      exact List.mem_singleton.2 rfl
    · rw [hx, splitComma_append_comma gzipChars q, splitComma_no_comma gzipChars hnc]
      exact List.mem_append.2 (Or.inl (List.mem_singleton.2 rfl))
  rcases Nat.eq_zero_or_pos i with hi0 | hipos
  · -- the match is at the start of the string
    subst hi0
    rw [List.take_zero, List.nil_append] at hs
    rw [hs]
    refine hmidmem _ ?_
    rcases hpost with hp | ⟨q, hp⟩
    · exact Or.inl hp
    · exact Or.inr ⟨q, hp⟩
  · -- a comma stands right before the match
    have hcommab : s.get? (i - 1) = some ',' := by
      rcases hbefore with h0 | hc
      · omega
      · exact hc
    obtain ⟨k, hk⟩ : ∃ k, i = k + 1 := ⟨i - 1, by omega⟩
    subst hk
    simp only [Nat.add_sub_cancel] at hcommab
    have hge : s[k]? = some ',' := by
      rw [← List.get?_eq_getElem?]
      exact hcommab
    have htake : s.take (k + 1) = s.take k ++ [','] := by
      rw [List.take_succ, hge]
      rfl
    rw [htake] at hs
    rw [hs, List.append_assoc, List.singleton_append]
    rw [splitComma_append_comma]
    refine List.mem_append.2 (Or.inr ?_)
    refine hmidmem _ ?_
    rcases hpost with hp | ⟨q, hp⟩
    · exact Or.inl hp
    · exact Or.inr ⟨q, hp⟩

/-- Conversely, `gzip` among the fields yields a boundary match (induction
bounded by the string length; the recursive case peels the first field and
shifts the match found in the rest). -/
theorem tokenSpec_to_boundary_bounded :
    ∀ (n : Nat) (s : List Char), s.length ≤ n → gzipChars ∈ splitComma s →
      ∃ i, gzipBoundaryAt s i = true ∧ i + 4 ≤ s.length := by
  intro n
  induction n with
  | zero =>
    intro s hlen hmem
    have hs : s = [] := List.length_eq_zero.1 (Nat.le_zero.1 hlen)
    subst hs
    simp [splitComma, gzipChars] at hmem
  | succ n ih =>
    intro s hlen hmem
    cases hsp : splitComma s with
    | nil => exact absurd hsp (splitComma_ne_nil s)
    | cons t ts =>
      rw [hsp] at hmem
      rcases splitComma_head_decomp s t ts hsp with ⟨hts, hst⟩ | ⟨q, hq1, hq2⟩
      · -- the whole string is one token
        subst hts
        have ht : gzipChars = t := by simpa using hmem
        subst hst
        subst ht
        have hb := gzipBoundaryAt_start [] (Or.inl rfl)
        rw [List.append_nil] at hb
        exact ⟨0, hb, by simp [gzipChars]⟩
      · rcases List.mem_cons.1 hmem with hgt | hgts
        · -- gzip is the first token, followed by a comma
          subst hq1
          rw [← hgt]
          have hb := gzipBoundaryAt_start (',' :: q) (Or.inr ⟨q, rfl⟩)
          refine ⟨0, hb, ?_⟩
          simp [gzipChars]
        · -- gzip is a later token, inside q
          rw [← hq2] at hgts
          have hqlen : q.length ≤ n := by
            have h1 := congrArg List.length hq1
            simp only [List.length_append, List.length_cons] at h1
            omega
          obtain ⟨j, hbj, hjlen⟩ := ih q hqlen hgts
          subst hq1
          refine ⟨t.length + 1 + j, gzipBoundaryAt_shift t q j hbj, ?_⟩
          simp only [List.length_append, List.length_cons]
          omega

/-- `CanGzip` accepts a header string exactly when `gzip` occurs in it as
a complete comma-separated token. -/
theorem canGzip_iff_token (s : List Char) : canGzip s = true ↔ gzipChars ∈ splitComma s := by
  constructor
  · intro h
    obtain ⟨i, _, hB⟩ := List.any_eq_true.1 h
    exact boundary_to_tokenSpec s i hB
  · intro h
    obtain ⟨i, hB, hle⟩ := tokenSpec_to_boundary_bounded s.length s (Nat.le_refl _) h
    refine List.any_eq_true.2 ⟨i, List.mem_range.2 (by omega), hB⟩

/-- C1: `CanGzip` accepts exactly the headers carrying `gzip` as a
complete comma-separated token (for EVERY header string), but on
`"gziptest,gzip"` — where that token is present — `CanGzipFast`, the
variant `ServeHTTP` actually uses, rejects: `strings.Index` finds only
the first, non-token occurrence (position 0) and checks boundaries
there. The claim that both matchers accept exactly the token-carrying
headers is therefore false of `CanGzipFast`. -/
theorem c1_canGzipFast_misses_trailing_token :
    (∀ s : List Char, canGzip s = true ↔ gzipTokenSpec s)
    ∧ gzipTokenSpec gzMissedInput
    ∧ canGzip gzMissedInput = true
    ∧ canGzipFast gzMissedInput = false
    ∧ stringsIndexGzip gzMissedInput = some 0 := by
  refine ⟨fun s => canGzip_iff_token s, ?_, ?_, ?_, ?_⟩ <;> decide

/-! ### C2: the maximum constraint is documented under Minimum -/

/-- C2: for an `int` field declaring `maximum:"200"` (and no `minimum`),
`addFieldRestrictions` leaves the schema's `Maximum` unset and writes the
bound into `Minimum` instead — `vMaximumInt.ToSwaggerSchema` assigns
`schema.Minimum = val`. The runtime validator for the same field enforces
the bound as a true maximum (201 is rejected, 200 is accepted), so the
documentation drifts from enforcement. -/
theorem c2_maximum_documented_as_minimum :
    (addFieldRestrictions .kInt "MaxParam" fieldC2Tags {}).maximumF = none
    ∧ (addFieldRestrictions .kInt "MaxParam" fieldC2Tags {}).minimumF = some 200
    ∧ maxIntCheck "MaxParam" fieldC2Tags 200 (.vInt 201) =
        .fail "max_param=201 is greater than requred maximum 200"
    ∧ maxIntCheck "MaxParam" fieldC2Tags 200 (.vInt 200) = .ok := by
  refine ⟨rfl, rfl, rfl, rfl⟩

/-! ### C5: derived descriptor paths -/

/-- Lowering an ASCII uppercase letter yields a non-uppercase character. -/
theorem goToLowerChar_not_upper (c : Char) :
    (65 ≤ (goToLowerChar c).toNat && (goToLowerChar c).toNat ≤ 90) = false := by
  unfold goToLowerChar
  split
  · rename_i h
    simp only [Bool.and_eq_true, decide_eq_true_eq] at h
    have hv : (c.toNat + 32).isValidChar := by
      left
      omega
    have ht : (Char.ofNat (c.toNat + 32)).toNat = c.toNat + 32 := by
      rw [Char.ofNat, dif_pos hv]
      rfl
    rw [ht]
    simp only [Bool.and_eq_false_iff, decide_eq_false_iff_not]
    right
    omega
  · rename_i h
    simpa using h

/-- `goToLower` produces a string with no uppercase letter. -/
theorem noUpper_goToLower (s : String) : noUpper (goToLower s) = true := by
  unfold noUpper goToLower
  show (s.data.map goToLowerChar).all _ = true
  rw [List.all_map]
  refine List.all_eq_true.2 (fun c _ => ?_)
  show (!(65 ≤ (goToLowerChar c).toNat && (goToLowerChar c).toNat ≤ 90)) = true
  rw [goToLowerChar_not_upper]
  rfl

/-- `noUpper` distributes over string append. -/
theorem noUpper_append (a b : String) : noUpper (a ++ b) = (noUpper a && noUpper b) := by
  unfold noUpper
  rw [String.data_append, List.all_append]

/-- C5 counterexample: a service package path containing an uppercase
letter. The derived path keeps the uppercase letters of the stripped
package path (only the method name is lowercased), so it is neither
entirely lowercase nor equal to the all-lowercase path of the claim. -/
theorem c5_path_keeps_uppercase_cex :
    methodDescPath "A/Hello" "A" "V1" = some "/Hello/v1"
    ∧ noUpper "/Hello/v1" = false
    ∧ methodDescPath "A/Hello" "A" "V1" ≠ some (goToLower "/Hello" ++ "/" ++ goToLower "V1") := by
  decide

/-- C5 amended: the derived descriptor path is the trimPrefix-stripped
package path VERBATIM, followed by `/` and the lowercased method name; it
is entirely lowercase whenever the stripped package path is (which holds
for conventional all-lowercase Go module paths, e.g. the repository's own
test service). -/
theorem c5_path_shape (pkgPath tp name stripped : String)
    (hstrip : getMethodPath pkgPath tp = some stripped) :
    methodDescPath pkgPath tp name = some (stripped ++ "/" ++ goToLower name)
    ∧ (noUpper stripped = true → noUpper (stripped ++ "/" ++ goToLower name) = true) := by
  constructor
  · unfold methodDescPath
    rw [hstrip]
    rfl
  · intro hlow
    rw [noUpper_append, noUpper_append, hlow, noUpper_goToLower]
    decide

/-- C5 amended, witnessed at the repository's own layout: module path
`a/b/hello` under trim prefix `a/b` with method `V2`. -/
theorem c5_path_shape_witness :
    methodDescPath "a/b/hello" "a/b" "V2" = some ("/hello" ++ "/" ++ goToLower "V2")
    ∧ (noUpper "/hello" = true → noUpper ("/hello" ++ "/" ++ goToLower "V2") = true) :=
  c5_path_shape "a/b/hello" "a/b" "V2" "/hello" (by decide)

/-! ### C6 and C7: decoding, validation and dispatch in MethodDesc.Call -/

/-- Whatever the handler returns, `runHandler` marks it invoked. -/
theorem runHandler_invoked (h : GoVal → GoVal × Option CallErrE) (req : GoVal) :
    (runHandler h req).handlerInvoked = true := by
  unfold runHandler
  rcases hr : h req with ⟨resp, err⟩
  cases err <;> simp

/-- A nil handler error returns the response value. -/
theorem runHandler_nil_error (h : GoVal → GoVal × Option CallErrE) (req : GoVal)
    (hn : (h req).2 = none) : runHandler h req = ⟨.success (h req).1, true⟩ := by
  unfold runHandler
  rcases hr : h req with ⟨resp, err⟩
  rw [hr] at hn
  simp only at hn
  subst hn
  rfl

/-- A non-nil handler error is surfaced verbatim. -/
theorem runHandler_some_error (h : GoVal → GoVal × Option CallErrE) (req : GoVal)
    (e : CallErrE) (hs : (h req).2 = some e) : runHandler h req = ⟨.callErr e, true⟩ := by
  unfold runHandler
  rcases hr : h req with ⟨resp, err⟩
  rw [hr] at hs
  simp only at hs
  subst hs
  rfl

/-- When the validator map is empty or validation passes, `mdCall`
dispatches to the handler. -/
theorem mdCall_dispatches (vmap : VMap) (ty : GoTy) (req : GoVal)
    (h : GoVal → GoVal × Option CallErrE)
    (hok : vmap.isEmpty = true ∨ validateData vmap ty req "" = .pass) :
    mdCall vmap ty (.ok req) h = runHandler h req := by
  rcases hok with he | hp
  · simp [mdCall, he]
  · cases hie : vmap.isEmpty
    · simp [mdCall, hie, hp]
    · simp [mdCall, hie]

/-- C7: the observable contract of `MethodDesc.Call`. (1) A JSON decode
failure yields the structured `INVALID_JSON` error carrying the decoder's
message, and the handler is not invoked. (2) With compiled validators, the
first failing predicate's message is wrapped in `INVALID_JSON` and the
handler is not invoked. (3) When there are no validators or validation
passes, the handler is invoked; its non-nil error is returned verbatim and
a nil error returns the response value. (4) Conversely, a structured
error produced by the pipeline itself (handler not invoked) on a decoded
request is always `INVALID_JSON` wrapping a validation failure. -/
theorem c7_call_outcome_characterization (vmap : VMap) (ty : GoTy)
    (h : GoVal → GoVal × Option CallErrE) :
    (∀ msg, mdCall vmap ty (.error msg) h = ⟨.callErr (.rpcE "INVALID_JSON" msg), false⟩)
    ∧ (∀ req msg, vmap.isEmpty = false → validateData vmap ty req "" = .failV msg →
        mdCall vmap ty (.ok req) h = ⟨.callErr (.rpcE "INVALID_JSON" msg), false⟩)
    ∧ (∀ req, vmap.isEmpty = true ∨ validateData vmap ty req "" = .pass →
        (mdCall vmap ty (.ok req) h).handlerInvoked = true
        ∧ ((h req).2 = none → mdCall vmap ty (.ok req) h = ⟨.success (h req).1, true⟩)
        ∧ (∀ e, (h req).2 = some e → mdCall vmap ty (.ok req) h = ⟨.callErr e, true⟩))
    ∧ (∀ req code msg,
        mdCall vmap ty (.ok req) h = ⟨.callErr (.rpcE code msg), false⟩ →
        code = "INVALID_JSON" ∧ vmap.isEmpty = false
        ∧ validateData vmap ty req "" = .failV msg) := by
  refine ⟨fun msg => rfl, ?_, ?_, ?_⟩
  · intro req msg hne hval
    simp [mdCall, hne, hval]
  · intro req hok
    rw [mdCall_dispatches vmap ty req h hok]
    exact ⟨runHandler_invoked h req,
      fun hn => runHandler_nil_error h req hn,
      fun e hs => runHandler_some_error h req e hs⟩
  · intro req code msg heq
    cases hie : vmap.isEmpty with
    | true =>
      have hinv := runHandler_invoked h req
      rw [← mdCall_dispatches vmap ty req h (Or.inl hie), heq] at hinv
      simp at hinv
    | false =>
      cases hval : validateData vmap ty req "" with
      | pass =>
        have hinv := runHandler_invoked h req
        rw [← mdCall_dispatches vmap ty req h (Or.inr hval), heq] at hinv
        simp at hinv
      | failV m =>
        simp only [mdCall, hie, Bool.false_eq_true, if_false, hval] at heq
        have h1 : CallOut.callErr (.rpcE "INVALID_JSON" m) = .callErr (.rpcE code msg) :=
          congrArg CallRes.out heq
        simp only [CallOut.callErr.injEq, CallErrE.rpcE.injEq] at h1
        refine ⟨h1.1.symm, rfl, ?_⟩
        rw [← h1.2]
      | panicV m =>
        simp only [mdCall, hie, Bool.false_eq_true, if_false, hval] at heq
        have h1 : CallOut.panicOut m = .callErr (.rpcE code msg) :=
          congrArg CallRes.out heq
        simp at h1

/-- C6: with the signed field `int_param` declaring `minimum:"100"
maximum:"200"`, a request carrying 99 or 201 yields the structured
`INVALID_JSON` error with the failing predicate's message and the handler
is not invoked; a request carrying 150 passes validation and the handler
is invoked. -/
theorem c6_min_max_validation (h : GoVal → GoVal × Option CallErrE) :
    mdCall vmapC6 tyC6 (.ok (reqC6 99)) h =
      ⟨.callErr (.rpcE "INVALID_JSON" "int_param=99 is less than requred minimum 100"), false⟩
    ∧ mdCall vmapC6 tyC6 (.ok (reqC6 201)) h =
      ⟨.callErr (.rpcE "INVALID_JSON" "int_param=201 is greater than requred maximum 200"), false⟩
    ∧ (mdCall vmapC6 tyC6 (.ok (reqC6 150)) h).handlerInvoked = true := by
  refine ⟨rfl, rfl, ?_⟩
  show (runHandler h (reqC6 150)).handlerInvoked = true
  exact runHandler_invoked h (reqC6 150)

/-! ### C8: file capture, size and spooling -/

/-- C8: a captured file part of `n = data.length` bytes reports
`Size() = n` whether buffered or spooled; it is spooled exactly when
`n > maxMemory`; and a spooled part's external storage holds the buffered
bytes followed by the rest of the stream — all `n` bytes — rewound to
offset 0. -/
theorem c8_file_size_and_spooling (data : List Nat) (maxMemory : Nat) :
    (captureFilePart data maxMemory).size = data.length
    ∧ ((captureFilePart data maxMemory).isSpooled = true ↔ maxMemory < data.length)
    ∧ (maxMemory < data.length → captureFilePart data maxMemory = .tmpSpool data 0) := by
  unfold captureFilePart
  by_cases hc : maxMemory < data.length
  · have hlt : maxMemory < (data.take (maxMemory + 1)).length := by
      rw [List.length_take]
      omega
    rw [if_pos hlt]
    rw [List.take_append_drop]
    simp [FileBacking.size, FileBacking.isSpooled, hc]
  · have hge : ¬ maxMemory < (data.take (maxMemory + 1)).length := by
      rw [List.length_take]
      omega
    rw [if_neg hge]
    have hall : (data.take (maxMemory + 1)).length = data.length := by
      rw [List.length_take]
      omega
    simp [FileBacking.size, FileBacking.isSpooled, hall, hc]

/-! ### C9: the unsigned maximum is never enforced -/

/-- A `minUintCheck` passes any value at or above its target. -/
theorem minUintCheck_passes (fname : String) (tags : FieldTags) (target : Int) (n : Nat)
    (hge : ¬ ((n : Int) < target)) : minUintCheck fname tags target (.vUint n) = .ok := by
  unfold minUintCheck
  simp only [if_neg hge]

/-- C9: for the unsigned field `f1` declaring `minimum:"1" maximum:"200"`
(the repository's `StructV1.F1`), registration compiles the validator list
from `uintValidators = {vMinimumUint, vMinimumUint}`: a field declaring
only a `maximum` compiles NO validator at all, the min/max field compiles
the minimum rule twice, and every value above the declared maximum passes
validation, so the handler is invoked. -/
theorem c9_uint_maximum_not_enforced (v : Nat) (hv : 200 < v)
    (h : GoVal → GoVal × Option CallErrE) :
    getValidators tyC9max [] "" = []
    ∧ (vmapGet vmapC9 "/F1").length = 2
    ∧ validateData vmapC9 tyC9 (reqC9 v) "" = .pass
    ∧ (mdCall vmapC9 tyC9 (.ok (reqC9 v)) h).handlerInvoked = true := by
  have h1 : ¬ ((v : Int) < 1) := by omega
  have hok := minUintCheck_passes "F1" tagsC9 1 v h1
  have hrun : runValidateList (vmapGet vmapC9 "/F1") (.vUint v) = .pass := by
    rw [show vmapGet vmapC9 "/F1" = [minUintCheck "F1" tagsC9 1, minUintCheck "F1" tagsC9 1]
      from rfl]
    simp [runValidateList, hok]
  have hvd : validateData vmapC9 tyC9 (reqC9 v) "" = .pass := by
    simp only [vmapC9, tyC9, reqC9, validateData, validateFields, GoTy.derefElem] at hrun ⊢
    rw [show ("" ++ "/" ++ "F1" : String) = "/F1" from rfl]
    rw [hrun]
  refine ⟨rfl, rfl, hvd, ?_⟩
  rw [mdCall_dispatches vmapC9 tyC9 (reqC9 v) h (Or.inr hvd)]
  exact runHandler_invoked h (reqC9 v)

/-- C9 witnessed at the test suite's own out-of-range value `F1 = 500`. -/
theorem c9_uint_maximum_not_enforced_witness :
    getValidators tyC9max [] "" = []
    ∧ (vmapGet vmapC9 "/F1").length = 2
    ∧ validateData vmapC9 tyC9 (reqC9 500) "" = .pass
    ∧ (mdCall vmapC9 tyC9 (.ok (reqC9 500)) echoHandler).handlerInvoked = true :=
  c9_uint_maximum_not_enforced 500 (by omega) echoHandler

/-! ### C4: spooled temp files are never released by the pipeline -/

/-- The dispatched handler always runs to completion. -/
theorem dispatchOutcome_invoked (resp : GoVal) (herr : Option CallErrE) :
    (dispatchOutcome resp herr).handlerInvoked = true := by
  cases herr <;> rfl

/-- C4: a successful multipart call with one 3-byte file part above the
1-byte memory threshold creates one spooled temp file and removes none —
`MethodDesc.Call` contains no release of the captured `File` values, so
the spooled storage outlives the request whatever the handler returns.
(The loop deletes a temp file only on its internal copy/seek error
paths.) The claim that every `File` is released once the handler has
returned is false of the code. -/
theorem c4_spooled_temp_file_never_removed (resp : GoVal) (herr : Option CallErrE) :
    (mdCallMultipart [.filePart [0, 1, 2] true true true] 1 false .pass resp herr).2
      = ⟨1, 0⟩
    ∧ (mdCallMultipart [.filePart [0, 1, 2] true true true] 1 false .pass resp herr).1.handlerInvoked
      = true := by
  constructor
  · rfl
  · show (dispatchOutcome resp herr).handlerInvoked = true
    exact dispatchOutcome_invoked resp herr

/-! ### C3: both projections recurse forever on a self-referential type -/

/-- The documentation walk on `type T struct { Next *T }` exhausts ANY
fuel while the name is not yet in storage: `getSchema` inserts the
struct's name only AFTER recursing into its fields, so the recursive
field meets the same absent name again. -/
theorem getSchemaFuel_selfRef_none :
    ∀ (fuel : Nat) (st : SMap), lookupSMap st "t" = none →
      getSchemaFuel selfRefEnv fuel (.sNamed "t") st = none := by
  intro fuel
  induction fuel using Nat.strong_induction_on with
  | _ fuel IH =>
    intro st h
    cases fuel with
    | zero => rfl
    | succ f1 =>
      cases f1 with
      | zero => simp [getSchemaFuel, getSchemaFieldsFuel, selfRefEnv, h]
      | succ f2 =>
        cases f2 with
        | zero => simp [getSchemaFuel, getSchemaFieldsFuel, selfRefEnv, h]
        | succ f3 =>
          have hk := IH f3 (by omega) st h
          simp only [selfRefEnv] at hk
          simp [getSchemaFuel, getSchemaFieldsFuel, selfRefEnv, h, hk]

/-- The client-binding walk on the same type also exhausts any fuel, from
ANY table state: `addTsStructTypes` registers the name before recursing
but never checks the table, so the registration breaks no cycle. -/
theorem addTsStructTypesFuel_selfRef_none :
    ∀ (fuel : Nat) (m : TsTable),
      addTsStructTypesFuel selfRefEnv fuel (.sNamed "t") m = none := by
  intro fuel
  induction fuel using Nat.strong_induction_on with
  | _ fuel IH =>
    intro m
    cases fuel with
    | zero => rfl
    | succ f1 =>
      cases f1 with
      | zero => simp [addTsStructTypesFuel, addTsFieldsFuel, selfRefEnv]
      | succ f2 =>
        cases f2 with
        | zero => simp [addTsStructTypesFuel, addTsFieldsFuel, selfRefEnv]
        | succ f3 =>
          have hk := IH f3 (by omega) ("t" :: m)
          simp only [selfRefEnv] at hk
          simp [addTsStructTypesFuel, addTsFieldsFuel, selfRefEnv, hk]

/-- C3: on the self-referential struct `T { Next *T }` NEITHER projection
terminates: for every fuel bound, the fuelled documentation walk
(`getSchema`) and the fuelled client-binding walk (`addTsStructTypes`)
both run out — `getSchema` registers the struct's name only after its
field recursion, and `addTsStructTypes` registers before recursing but
never consults the table, so the claimed cycle-breaking lookup never
happens in either projection. -/
theorem c3_projections_diverge_on_self_referential_type :
    (∀ fuel, getSchemaFuel selfRefEnv fuel (.sNamed "t") [] = none)
    ∧ (∀ fuel m, addTsStructTypesFuel selfRefEnv fuel (.sNamed "t") m = none) :=
  ⟨fun fuel => getSchemaFuel_selfRef_none fuel [] rfl,
   fun fuel m => addTsStructTypesFuel_selfRef_none fuel m⟩

/-! ### C10: ErrorsV accessor without a matching version method -/

/-- `descPaths` distributes over the service's method list. -/
theorem descPaths_append (path : String) (a b : List SvcEntry) :
    descPaths path (a ++ b) = descPaths path a ++ descPaths path b := by
  induction a with
  | nil => rfl
  | cons e rest ih => cases e <;> simp [descPaths, ih]

/-- `bindErrors` skips version methods without touching the map. -/
theorem bindErrorsModel_skip_versions (path : String) (vers : List Nat)
    (l : List SvcEntry) (m : MethodsMap) :
    bindErrorsModel path (vers.map .versionM ++ l) m = bindErrorsModel path l m := by
  induction vers with
  | nil => rfl
  | cons n rest ih => simpa [bindErrorsModel] using ih

/-- A path not in the registered list finds no descriptor. -/
theorem mmapHas_of_not_mem :
    ∀ (l : List String) (p : String), p ∉ l →
      mmapHas (l.map (fun q => (q, ([] : List (String × String))))) p = false := by
  intro l
  induction l with
  | nil =>
    intro p _
    rfl
  | cons q rest ih =>
    intro p hnm
    simp only [List.mem_cons, not_or] at hnm
    have hq : ¬ (q = p) := fun hh => hnm.1 hh.symm
    have hr := ih p hnm.2
    simp only [mmapHas, List.map_cons, List.find?_cons] at hr ⊢
    rw [decide_eq_false hq]
    exact hr

/-- C10: registering a service that defines `ErrorsV<n>` (well-formed,
with at least one `ErrorFunc` field) but no `V<n>` method ends in the
nil-descriptor panic inside `bindErrors` — `methods[path + "/v" + n]` is
nil and its `Errors` map is dereferenced — instead of a registration
error returned to the caller of `RegisterMethod`. -/
theorem c10_bind_errors_nil_descriptor_panic (path : String) (vers : List Nat) (n : Nat)
    (fname fdesc : String) (rest : List ErrField)
    (hno : (path ++ "/v" ++ toString n) ∉ descPaths path (vers.map .versionM)) :
    registerMethodModel path
        (vers.map .versionM ++ [.errorsM n (.ptrStruct (⟨fname, true, fdesc⟩ :: rest))])
      = .nilPanic (path ++ "/v" ++ toString n) := by
  unfold registerMethodModel
  rw [descPaths_append]
  rw [show descPaths path [.errorsM n (.ptrStruct (⟨fname, true, fdesc⟩ :: rest))] = []
    from rfl]
  rw [List.append_nil]
  rw [bindErrorsModel_skip_versions]
  have hmh := mmapHas_of_not_mem (descPaths path (vers.map .versionM))
    (path ++ "/v" ++ toString n) hno
  simp [bindErrorsModel, bindFields, hmh]

/-- C10 witnessed: a service with `V1` and an `ErrorsV2` accessor (one
declared error code) but no `V2` method. -/
theorem c10_bind_errors_nil_descriptor_panic_witness :
    registerMethodModel "/hello"
        ([1].map SvcEntry.versionM ++
          [.errorsM 2 (.ptrStruct (⟨"Error1", true, "Error 1"⟩ :: []))])
      = .nilPanic ("/hello" ++ "/v" ++ toString 2) :=
  c10_bind_errors_nil_descriptor_panic "/hello" [1] 2 "Error1" "Error 1" [] (by decide)
